import Mathlib

/-!
Formal model of the R quality analyzer's parsing and metrics core
(`r_quality_analyzer/domain`): the quote/escape-aware lexical scanner,
the structural extractor for functions and the four class-declaration
styles, the metric units (LOC, NOM, cyclomatic complexity, MPC, CBO,
LCOM, paradigm), and the file/repository aggregation layer.

Modelling conventions:
* Text is `List Char`.  Python's `\w` is modelled as ASCII alphanumeric
  or underscore, `\s`/`str.strip` whitespace as the six ASCII whitespace
  characters, and the only line separator handled is a newline character
  (all inputs exercised by the development use plain ASCII text).
* Each regular expression of the source is a fixed pattern, translated
  into a dedicated matcher with the same leftmost-match, greedy and
  backtracking behaviour on its character classes.  Character classes of
  the patterns are pairwise disjoint at every juncture where the Python
  engine could backtrack the length of a `\w+`/`\s*` run, so the maximal
  run is the only candidate the engine ever keeps; side conditions where
  real backtracking can occur (optional groups, bracketed runs such as
  `[^)'"]+`) are implemented as explicit alternative attempts in the
  matcher, mirroring the engine's preference order.
* Python `while` loops whose index strictly increases are written with a
  fuel argument equal to the number of lines (an upper bound on the
  iteration count), so that every function is structurally recursive and
  evaluates by kernel reduction.
* Python `dict` (insertion ordered) is modelled as an association list;
  `set` values are modelled by lists considered up to membership, and
  `sorted(set(..))` as sort-after-dedup.
* `round(x, 2)` is modelled exactly over `ℚ` as round-half-to-even of
  `100 * x` divided by `100` (the idealised semantics of CPython's
  `round`, ignoring binary floating-point representation error).
-/

/-- Text span, as in the Python source: a string, viewed character-wise. -/
abbrev Str := List Char

/-- ASCII whitespace, the model of Python's `\s` and of `str.strip`. -/
def isSpaceChar (c : Char) : Bool :=
  c = ' ' || c = '\t' || c = '\n' || c = '\r' || c = '\x0b' || c = '\x0c'

/-- Word characters, the model of Python's `\w`. -/
def isWordChar (c : Char) : Bool :=
  c.isAlphanum || c = '_'

/-- Model of Python `str.strip()`. -/
def pyStrip (s : Str) : Str :=
  ((s.dropWhile isSpaceChar).reverse.dropWhile isSpaceChar).reverse

/-- Model of Python `str.split(sep)` for a one-character separator. -/
def splitCharOn (sep : Char) : Str → List Str
  | [] => [[]]
  | c :: rest =>
    match splitCharOn sep rest with
    | [] => if c = sep then [[], []] else [[c]]
    | p :: ps => if c = sep then [] :: p :: ps else (c :: p) :: ps

/-- Model of Python `"\n".join(lines)`. -/
def joinNl (ls : List Str) : Str := List.intercalate ['\n'] ls

/-- Model of Python `str.splitlines()` restricted to `\n` separators:
like `split("\n")` but without the trailing empty piece, and empty for
the empty string. -/
def pySplitlines (s : Str) : List Str :=
  if s = [] then []
  else if s.getLast? = some '\n' then (splitCharOn '\n' s).dropLast
  else splitCharOn '\n' s

/-- Helper for `findSub`: leftmost occurrence index of `pat`, counting
from `idx`. -/
def findSubAux (pat : Str) : Str → Nat → Option Nat
  | s, idx =>
    if pat.isPrefixOf s then some idx
    else
      match s with
      | [] => none
      | _ :: rest => findSubAux pat rest (idx + 1)

/-- Model of Python `s.find(pat)` (as an `Option` instead of `-1`). -/
def findSub (s pat : Str) : Option Nat := findSubAux pat s 0

/-- State of `RParser._count_braces`: running count, the two quote
flags, and the pending-escape flag. -/
structure CBSt where
  bc : Int
  in_single : Bool
  in_double : Bool
  esc : Bool
deriving Repr, DecidableEq

/-- One character step of `RParser._count_braces`. -/
def cbStep (st : CBSt) (c : Char) : CBSt :=
  if st.esc then { st with esc := false }
  else if c = '\\' then { st with esc := true }
  else if c = '\'' ∧ ¬st.in_double then { st with in_single := ¬st.in_single }
  else if c = '"' ∧ ¬st.in_single then { st with in_double := ¬st.in_double }
  else if ¬st.in_single ∧ ¬st.in_double then
    if c = '{' then { st with bc := st.bc + 1 }
    else if c = '}' then { st with bc := st.bc - 1 }
    else st
  else st

/-- `RParser._count_braces`: net brace delta of a text span, skipping
braces inside quotes and honouring backslash escapes.  This is the
spec's `braceDelta` primitive. -/
def count_braces (text : Str) : Int :=
  (text.foldl cbStep ⟨0, false, false, false⟩).bc

/-- Quote-state component of `cbStep` (first component: in-single,
second: in-double), for a non-backslash character with no pending
escape. -/
def qstep (q : Bool × Bool) (c : Char) : Bool × Bool :=
  if c = '\'' ∧ ¬q.2 then (¬q.1, q.2)
  else if c = '"' ∧ ¬q.1 then (q.1, ¬q.2)
  else q

/-- Count component of `cbStep` for a non-backslash character with no
pending escape. -/
def bdelta (q : Bool × Bool) (c : Char) : Int :=
  if c = '\'' ∧ ¬q.2 then 0
  else if c = '"' ∧ ¬q.1 then 0
  else if ¬q.1 ∧ ¬q.2 then
    if c = '{' then 1 else if c = '}' then -1 else 0
  else 0

/-- Brace-swapping involution used to state the spec's balance claim. -/
def swapBrace (c : Char) : Char :=
  if c = '{' then '}' else if c = '}' then '{' else c

/-- The "exact reverse-concatenation with matching open/close braces"
of the spec: the reverse of the text with `{`/`}` swapped. -/
def mirrorOf (t : Str) : Str := (t.reverse).map swapBrace

/-- Leftmost-match search: Python `re.search`, given a matcher that
decides whether the pattern matches at the head of a suffix. -/
def reSearch (m : Str → Option α) : Str → Option α
  | [] => m []
  | c :: rest =>
    match m (c :: rest) with
    | some a => some a
    | none => reSearch m rest

/-- Helper for `reFindall`; the fuel bounds the iteration count. -/
def reFindallAux (m : Str → Option (α × Nat)) : Nat → Str → List α
  | 0, _ => []
  | fuel + 1, s =>
    match m s with
    | some (a, n) => a :: reFindallAux m fuel (s.drop (max n 1))
    | none =>
      match s with
      | [] => []
      | _ :: rest => reFindallAux m fuel rest

/-- Python `re.findall`: leftmost, non-overlapping matches, given a
matcher that returns the capture and the matched length at a position.
All matchers used have positive match length. -/
def reFindall (m : Str → Option (α × Nat)) (s : Str) : List α :=
  reFindallAux m (s.length + 1) s

/-- Helper for `reFindallB`; `prev` is the character before the current
position, for word-boundary (`\b`) tests. -/
def reFindallBAux (m : Option Char → Str → Option (α × Nat)) :
    Nat → Option Char → Str → List α
  | 0, _, _ => []
  | fuel + 1, prev, s =>
    match m prev s with
    | some (a, n) =>
      let n' := max n 1
      a :: reFindallBAux m fuel ((s.take n').getLast?) (s.drop n')
    | none =>
      match s with
      | [] => []
      | c :: rest => reFindallBAux m fuel (some c) rest

/-- `re.findall` for patterns that test a word boundary on the left. -/
def reFindallB (m : Option Char → Str → Option (α × Nat)) (s : Str) : List α :=
  reFindallBAux m (s.length + 1) none s

/-- `\b` holds before a word character when the previous character is
absent or not a word character. -/
def atBoundary (prev : Option Char) : Bool :=
  match prev with
  | none => true
  | some c => !isWordChar c

/-- Tail of the function/class definition patterns:
`\s*(?:<-|=)\s*CALLEE\s*\(`, returning the remaining text. -/
def afterAssign (callee : Str) (r : Str) : Option Str :=
  let r1 := r.dropWhile isSpaceChar
  let r2? : Option Str :=
    match r1 with
    | '<' :: '-' :: t => some t
    | '=' :: t => some t
    | _ => none
  match r2? with
  | none => none
  | some r2 =>
    let r3 := r2.dropWhile isSpaceChar
    if callee.isPrefixOf r3 then
      let r4 := (r3.drop callee.length).dropWhile isSpaceChar
      match r4 with
      | '(' :: t => some t
      | _ => none
    else none

/-- Matcher for `(\w+(?:\.\w+)?)\s*(?:<-|=)\s*CALLEE\s*\(` (the dot
group only when `allowDot`), returning the captured name and the match
length.  The optional `\.\w+` group is attempted greedily first, as the
regex engine does. -/
def matchNameAssign (allowDot : Bool) (callee : Str) (s : Str) : Option (Str × Nat) :=
  let (w1, r1) := s.span isWordChar
  if w1 = [] then none
  else
    let withDot : Option (Str × Nat) :=
      if allowDot then
        match r1 with
        | '.' :: r1b =>
          let (w2, r2) := r1b.span isWordChar
          if w2 = [] then none
          else
            match afterAssign callee r2 with
            | some rest => some (w1 ++ '.' :: w2, s.length - rest.length)
            | none => none
        | _ => none
      else none
    match withDot with
    | some x => some x
    | none =>
      match afterAssign callee r1 with
      | some rest => some (w1, s.length - rest.length)
      | none => none

/-- The literal `function(` marker searched with `str.find`. -/
def funcMarker : Str := ("function(").data

/-- `re.search` of the function-definition pattern
`(\w+(?:\.\w+)?)\s*(?:<-|=)\s*function\s*\(` on one line, capturing the
function name. -/
def searchFuncDef (line : Str) : Option Str :=
  reSearch (fun s => (matchNameAssign true (("function").data) s).map (·.1)) line

/-- `re.search` of the R6 pattern `(\w+)\s*(?:<-|=)\s*R6Class\s*\(` on
one line, capturing the class name. -/
def searchR6 (line : Str) : Option Str :=
  reSearch (fun s => (matchNameAssign false (("R6Class").data) s).map (·.1)) line

/-- `RParser._detect_s3_class`: `method.Class` convention. -/
def detect_s3_class (func_name : Str) : Option Str :=
  if ('.' ∉ func_name) ∨ func_name.headD ' ' = '.' then none
  else
    let parts := splitCharOn '.' func_name
    if parts.length = 2 then some (parts.getD 1 []) else none

/-- Optionally consume one quote character (`["']?`, greedy). -/
def dropOptQuote (s : Str) : Str :=
  match s with
  | c :: t => if c = '"' ∨ c = '\'' then t else s
  | [] => s

/-- Shared tail of the S4/RC declaration patterns:
`\s*\(\s*["']?(\w+)["']?` after the call-name literal. -/
def afterCallQuotedName (r : Str) : Option (Str × Str) :=
  let r1 := r.dropWhile isSpaceChar
  match r1 with
  | '(' :: r2 =>
    let r3 := dropOptQuote (r2.dropWhile isSpaceChar)
    let (w, r4) := r3.span isWordChar
    if w = [] then none else some (w, dropOptQuote r4)
  | _ => none

/-- Matcher for `setClass\s*\(\s*["']?(\w+)["']?`. -/
def matchSetClass (s : Str) : Option (Str × Nat) :=
  if (("setClass").data).isPrefixOf s then
    match afterCallQuotedName (s.drop 8) with
    | some (w, rest) => some (w, s.length - rest.length)
    | none => none
  else none

/-- Matcher for
`setMethod\s*\(\s*["']?(\w+)["']?\s*,\s*["']?(\w+)["']?`, capturing
(method name, class name). -/
def matchSetMethod (s : Str) : Option ((Str × Str) × Nat) :=
  if (("setMethod").data).isPrefixOf s then
    match afterCallQuotedName (s.drop 9) with
    | some (m, rest) =>
      let r1 := rest.dropWhile isSpaceChar
      match r1 with
      | ',' :: r2 =>
        let r3 := dropOptQuote (r2.dropWhile isSpaceChar)
        let (w, r4) := r3.span isWordChar
        if w = [] then none
        else some ((m, w), s.length - (dropOptQuote r4).length)
      | _ => none
    | none => none
  else none

/-- Matcher for `setRefClass\s*\(\s*["']?(\w+)["']?`. -/
def matchSetRefClass (s : Str) : Option (Str × Nat) :=
  if (("setRefClass").data).isPrefixOf s then
    match afterCallQuotedName (s.drop 11) with
    | some (w, rest) => some (w, s.length - rest.length)
    | none => none
  else none

/-- Matcher for the per-class RC method pattern
`CLASSNAME\s*\.\s*(\w+)\s*(?:<-|=)\s*function`. -/
def matchRcMethod (className : Str) (s : Str) : Option (Str × Nat) :=
  if className.isPrefixOf s then
    let r1 := (s.drop className.length).dropWhile isSpaceChar
    match r1 with
    | '.' :: r2 =>
      let (w, r3) := (r2.dropWhile isSpaceChar).span isWordChar
      if w = [] then none
      else
        let r4 := r3.dropWhile isSpaceChar
        let r5? : Option Str :=
          match r4 with
          | '<' :: '-' :: t => some t
          | '=' :: t => some t
          | _ => none
        match r5? with
        | none => none
        | some r5 =>
          let r6 := r5.dropWhile isSpaceChar
          if (("function").data).isPrefixOf r6 then
            some (w, s.length - (r6.drop 8).length)
          else none
    | _ => none
  else none

/-- Case-insensitive literal match (the `re.IGNORECASE` flag of the
module-loading pattern). -/
def isPrefixOfCI : Str → Str → Bool
  | [], _ => true
  | _ :: _, [] => false
  | a :: xs, b :: ys => (a.toLower = b.toLower) && isPrefixOfCI xs ys

/-- Consume `["']?\s*\)`, the tail of the module-loading pattern. -/
def tryQuoteSpaceParen (t : Str) : Option Str :=
  match (dropOptQuote t).dropWhile isSpaceChar with
  | ')' :: tt => some tt
  | _ => none

/-- Greedy-with-backtracking `[^"']+` run followed by
`["']?\s*\)`: try the longest capture first, as the regex engine does. -/
def backtrackRun (run rest : Str) : Nat → Option (Str × Str)
  | 0 => none
  | k + 1 =>
    match tryQuoteSpaceParen (run.drop (k + 1) ++ rest) with
    | some rem => some (run.take (k + 1), rem)
    | none => backtrackRun run rest k

/-- Matcher for the module-loading pattern
`(?:library|require)\s*\(\s*["']?([^"']+)["']?\s*\)` (IGNORECASE). -/
def matchLibReq (s : Str) : Option (Str × Nat) :=
  let rest0? : Option Str :=
    if isPrefixOfCI ("library".data) s then some (s.drop 7)
    else if isPrefixOfCI ("require".data) s then some (s.drop 7)
    else none
  match rest0? with
  | none => none
  | some r0 =>
    match r0.dropWhile isSpaceChar with
    | '(' :: r2 =>
      let r3 := dropOptQuote (r2.dropWhile isSpaceChar)
      let run := r3.takeWhile (fun c => !(c = '"' || c = '\''))
      match backtrackRun run (r3.drop run.length) run.length with
      | some (cap, rem) => some (cap, s.length - rem.length)
      | none => none
    | _ => none

/-- Matcher for the file-inclusion pattern
`source\s*\(\s*["']([^"']+)["']` (quotes required here). -/
def matchSourceCall (s : Str) : Option (Str × Nat) :=
  if ("source".data).isPrefixOf s then
    match (s.drop 6).dropWhile isSpaceChar with
    | '(' :: r2 =>
      match r2.dropWhile isSpaceChar with
      | q :: r3 =>
        if q = '"' ∨ q = '\'' then
          let run := r3.takeWhile (fun c => !(c = '"' || c = '\''))
          if run = [] then none
          else
            match r3.drop run.length with
            | _ :: rem => some (run, s.length - rem.length)
            | [] => none
        else none
      | [] => none
    | _ => none
  else none

/-- Matcher for the namespace-qualified call pattern `(\w+)::\w+`. -/
def matchNsCall (s : Str) : Option (Str × Nat) :=
  let (w, r) := s.span isWordChar
  if w = [] then none
  else
    match r with
    | ':' :: ':' :: r2 =>
      let (w2, r3) := r2.span isWordChar
      if w2 = [] then none else some (w, s.length - r3.length)
    | _ => none

/-- Lexicographic order on strings by character code (Python `sorted`). -/
def lexLe : Str → Str → Bool
  | [], _ => true
  | _ :: _, [] => false
  | a :: xs, b :: ys => if a = b then lexLe xs ys else decide (a < b)

/-- Insertion step of the sort used to model Python `sorted`. -/
def insSorted (x : Str) : List Str → List Str
  | [] => [x]
  | y :: t => if lexLe x y then x :: y :: t else y :: insSorted x t

/-- Insertion sort modelling Python `sorted` on deduplicated strings. -/
def sortStrs (l : List Str) : List Str := l.foldr insSorted []

/-- `RParser._extract_imports`: union of the three coupling patterns,
as a sorted deduplicated list (Python `sorted(set(..))`). -/
def extract_imports (source : Str) : List Str :=
  let libs := reFindall matchLibReq source
  let srcs := (reFindall matchSourceCall source).map (fun p => ("source:".data) ++ p)
  let nss := reFindall matchNsCall source
  sortStrs ((libs ++ srcs ++ nss).dedup)

/-- Insertion-ordered dictionary assignment `d[k] = v` (Python `dict`
semantics: existing keys keep their position). -/
def alSet [DecidableEq κ] (d : List (κ × β)) (k : κ) (v : β) : List (κ × β) :=
  if d.any (fun p => decide (p.1 = k)) then
    d.map (fun p => if p.1 = k then (p.1, v) else p)
  else d ++ [(k, v)]

/-- Python `d.setdefault(k, []).extend(v)` / `.append` on an
insertion-ordered dictionary of lists. -/
def alSetdefaultExtend [DecidableEq κ] (d : List (κ × List β)) (k : κ) (v : List β) :
    List (κ × List β) :=
  if d.any (fun p => decide (p.1 = k)) then
    d.map (fun p => if p.1 = k then (p.1, p.2 ++ v) else p)
  else d ++ [(k, v)]

/-- Python `d[k] = d.get(k, 0) + 1` on an insertion-ordered dictionary. -/
def alIncr [DecidableEq κ] (d : List (κ × Nat)) (k : κ) : List (κ × Nat) :=
  if d.any (fun p => decide (p.1 = k)) then
    d.map (fun p => if p.1 = k then (p.1, p.2 + 1) else p)
  else d ++ [(k, 1)]

/-- Captured function metadata (`ParsedFunction` in the source). -/
structure ParsedFunction where
  name : Str
  body : Str
  start_line : Nat
  class_name : Option Str
deriving Repr, DecidableEq

/-- The inclusive line span `lines[a..b]`. -/
def sliceLines (lines : List Str) (a b : Nat) : List Str :=
  (lines.drop a).take (b + 1 - a)

/-- The body-resolution loop of `RParser._extract_functions`:
`while j < len(lines) - 1 and brace_count > 0`, accumulating per-line
brace deltas; returns the final line index `j`.  The fuel (number of
lines) bounds the iteration count. -/
def braceScanAux (lines : List Str) : Nat → Nat → Int → Nat
  | 0, j, _ => j
  | fuel + 1, j, bc =>
    if j + 1 < lines.length ∧ 0 < bc then
      braceScanAux lines fuel (j + 1) (bc + count_braces (lines.getD (j + 1) []))
    else j

/-- The forward scan for a line containing the literal `function(`
(used when the definition line itself lacks the marker). -/
def findMarkerFrom (lines : List Str) : Nat → Nat → Option Nat
  | 0, _ => none
  | fuel + 1, i =>
    if i < lines.length then
      if (findSub (lines.getD i []) funcMarker).isSome then some i
      else findMarkerFrom lines fuel (i + 1)
    else none

/-- Main loop of `RParser._extract_functions` over the line list; the
fuel (number of lines) bounds the iteration count since the line index
strictly increases. -/
def extractAux (lines : List Str) : Nat → Nat → List ParsedFunction
  | 0, _ => []
  | fuel + 1, i =>
    if i < lines.length then
      let line := lines.getD i []
      match searchFuncDef line with
      | none => extractAux lines fuel (i + 1)
      | some func_name =>
        let class_name := detect_s3_class func_name
        match findSub line funcMarker with
        | some pos =>
          let j := braceScanAux lines lines.length i (count_braces (line.drop pos))
          ⟨func_name, joinNl (sliceLines lines i j), i, class_name⟩ ::
            extractAux lines fuel (j + 1)
        | none =>
          match findMarkerFrom lines lines.length (i + 1) with
          | none => extractAux lines fuel (i + 1)
          | some jm =>
            let pos := (findSub (lines.getD jm []) funcMarker).getD 0
            let j := braceScanAux lines lines.length jm (count_braces (line.drop pos))
            ⟨func_name, joinNl (sliceLines lines i j), i, class_name⟩ ::
              extractAux lines fuel (j + 1)
    else []

/-- `RParser._extract_functions`. -/
def extract_functions (source : Str) : List ParsedFunction :=
  extractAux (splitCharOn '\n' source) (splitCharOn '\n' source).length 0

/-- Quote/brace state of `RParser._extract_block` (the R6 block
scanner); unlike `_count_braces` it keeps one quote character, persists
state across lines, and only counts `}` once a `{` has been seen. -/
structure BlockSt where
  bc : Int
  inQ : Bool
  qc : Option Char
  esc : Bool
  started : Bool
deriving Repr, DecidableEq

/-- One character step of `RParser._extract_block`. -/
def blockStep (st : BlockSt) (c : Char) : BlockSt :=
  if st.esc then { st with esc := false }
  else if c = '\\' then { st with esc := true }
  else if c = '\'' ∨ c = '"' then
    if ¬st.inQ then { st with inQ := true, qc := some c }
    else if some c = st.qc then { st with inQ := false, qc := none }
    else st
  else if ¬st.inQ then
    if c = '{' then { st with bc := st.bc + 1, started := true }
    else if c = '}' ∧ st.started then { st with bc := st.bc - 1 }
    else st
  else st

/-- Line loop of `RParser._extract_block`: accumulate lines until the
brace count returns to zero after having started; returns the block
text and the next line index. -/
def extractBlockAux (lines : List Str) : Nat → Nat → BlockSt → List Str → (Str × Nat)
  | 0, j, _, acc => (joinNl acc.reverse, j + 1)
  | fuel + 1, j, st, acc =>
    if j < lines.length then
      let line := lines.getD j []
      let st' := line.foldl blockStep st
      let acc' := line :: acc
      if st'.started ∧ st'.bc = 0 then (joinNl acc'.reverse, j + 1)
      else extractBlockAux lines fuel (j + 1) st' acc'
    else (joinNl acc.reverse, j + 1)

/-- `RParser._extract_block`. -/
def extract_block (lines : List Str) (start_idx : Nat) : Str × Nat :=
  extractBlockAux lines (lines.length + 1) start_idx ⟨0, false, none, false, false⟩ []

/-- Matcher for the R6 member-list pattern
`(public|private|active)\s*=\s*list\s*\(([^)]+)\)`, capturing the
member-list text. -/
def matchPPA (s : Str) : Option (Str × Nat) :=
  let kw? : Option Nat :=
    if ("public".data).isPrefixOf s then some 6
    else if ("private".data).isPrefixOf s then some 7
    else if ("active".data).isPrefixOf s then some 6
    else none
  match kw? with
  | none => none
  | some k =>
    let r1 := (s.drop k).dropWhile isSpaceChar
    match r1 with
    | '=' :: r2 =>
      let r3 := r2.dropWhile isSpaceChar
      if ("list".data).isPrefixOf r3 then
        let r4 := (r3.drop 4).dropWhile isSpaceChar
        match r4 with
        | '(' :: r5 =>
          let run := r5.takeWhile (fun c => !(c = ')'))
          if run = [] then none
          else
            match r5.drop run.length with
            | ')' :: rem => some (run, s.length - rem.length)
            | _ => none
        | _ => none
      else none
    | _ => none

/-- `RParser._extract_r6_methods`: method names found in each
public/private/active member list of an R6 class body. -/
def extract_r6_methods (class_body : Str) : List Str :=
  (reFindall matchPPA class_body).flatMap
    (fun sect => reFindall (matchNameAssign false ("function".data)) sect)

/-- Line loop of `RParser._extract_r6_classes`. -/
def r6Aux (lines : List Str) : Nat → Nat → List (Str × List Str) → List (Str × List Str)
  | 0, _, acc => acc
  | fuel + 1, i, acc =>
    if i < lines.length then
      match searchR6 (lines.getD i []) with
      | none => r6Aux lines fuel (i + 1) acc
      | some class_name =>
        let blockNext := extract_block lines i
        r6Aux lines fuel blockNext.2 (alSet acc class_name (extract_r6_methods blockNext.1))
    else acc

/-- `RParser._extract_r6_classes`. -/
def extract_r6_classes (source : Str) : List (Str × List Str) :=
  r6Aux (splitCharOn '\n' source) (splitCharOn '\n' source).length 0 []

/-- `RParser._extract_s4_classes`: declared classes (empty method
lists) merged with registered (method, class) pairs. -/
def extract_s4_classes (source : Str) : List (Str × List Str) :=
  let base := (reFindall matchSetClass source).foldl (fun d n => alSet d n []) []
  (reFindall matchSetMethod source).foldl (fun d mc => alSetdefaultExtend d mc.2 [mc.1]) base

/-- `RParser._extract_reference_classes`. -/
def extract_reference_classes (source : Str) : List (Str × List Str) :=
  (reFindall matchSetRefClass source).foldl
    (fun d n => alSet d n (reFindall (matchRcMethod n) source)) []

/-- Structured representation of an R source file (`ParsedFile`). -/
structure ParsedFile where
  path : String
  source : Str
  functions : List ParsedFunction
  r6_classes : List (Str × List Str)
  s4_classes : List (Str × List Str)
  rc_classes : List (Str × List Str)
  imports : List Str
deriving Repr, DecidableEq

/-- `RParser.parse`. -/
def parseSource (path : String) (source : Str) : ParsedFile :=
  { path := path, source := source,
    functions := extract_functions source,
    r6_classes := extract_r6_classes source,
    s4_classes := extract_s4_classes source,
    rc_classes := extract_reference_classes source,
    imports := extract_imports source }

/-- Scan of `is_code_line` locating the first `#` outside quotes;
`prev` is the previous character of the stripped line (the Python code
tests `stripped[idx-1] != "\\"`). -/
def hashCut : Str → Option Char → Bool → Bool → Nat → Option Nat
  | [], _, _, _, _ => none
  | c :: rest, prev, inS, inD, idx =>
    if c = '\'' ∧ prev ≠ some '\\' then hashCut rest (some c) (!inS) inD (idx + 1)
    else if c = '"' ∧ prev ≠ some '\\' then hashCut rest (some c) inS (!inD) (idx + 1)
    else if c = '#' ∧ ¬inS ∧ ¬inD then some idx
    else hashCut rest (some c) inS inD (idx + 1)

/-- `is_code_line`: blank and comment-only lines are not code; inline
comments outside quotes are cut before deciding. -/
def is_code_line (line : Str) : Bool :=
  let stripped := pyStrip line
  if stripped = [] then false
  else if stripped.headD ' ' = '#' then false
  else
    match hashCut stripped none false false 0 with
    | some idx => pyStrip (stripped.take idx) ≠ []
    | none => true

/-- Matcher for the complexity patterns of shape `\bKW\s*\(`. -/
def matchKwParen (kw : Str) (prev : Option Char) (s : Str) : Option (Unit × Nat) :=
  if atBoundary prev ∧ kw.isPrefixOf s then
    match (s.drop kw.length).dropWhile isSpaceChar with
    | '(' :: t => some ((), s.length - t.length)
    | _ => none
  else none

/-- Matcher for the complexity patterns of shape `\bKW\b`. -/
def matchKwWord (kw : Str) (prev : Option Char) (s : Str) : Option (Unit × Nat) :=
  if atBoundary prev ∧ kw.isPrefixOf s then
    match (s.drop kw.length).head? with
    | none => some ((), kw.length)
    | some c => if isWordChar c then none else some ((), kw.length)
  else none

/-- Matcher for the two-character operator patterns `\|\|` and `&&`. -/
def matchOp2 (op : Str) (_prev : Option Char) (s : Str) : Option (Unit × Nat) :=
  if op.isPrefixOf s then some ((), 2) else none

/-- Number of non-overlapping matches of one complexity pattern. -/
def ccPatCount (m : Option Char → Str → Option (Unit × Nat)) (s : Str) : Nat :=
  (reFindallB m s).length

/-- `calculate_cyclomatic_complexity`: baseline 1 plus one per
occurrence of each branching pattern (strings are not excluded). -/
def calculate_cyclomatic_complexity (func_body : Str) : Nat :=
  1 + ccPatCount (matchKwParen ("if".data)) func_body
    + ccPatCount (matchKwWord ("else".data)) func_body
    + ccPatCount (matchKwParen ("while".data)) func_body
    + ccPatCount (matchKwParen ("for".data)) func_body
    + ccPatCount (matchKwParen ("repeat".data)) func_body
    + ccPatCount (matchKwWord ("break".data)) func_body
    + ccPatCount (matchKwWord ("next".data)) func_body
    + ccPatCount (matchKwParen ("switch".data)) func_body
    + ccPatCount (matchOp2 ("||".data)) func_body
    + ccPatCount (matchOp2 ("&&".data)) func_body

/-- Matcher for the call-site pattern `\b\w+\s*\(`; the returned token
is the matched text after `strip()` and `rstrip("(")` (so possible
whitespace between the name and the parenthesis is kept, as in the
source). -/
def matchCallSite (prev : Option Char) (s : Str) : Option (Str × Nat) :=
  if atBoundary prev then
    let (w, r1) := s.span isWordChar
    if w = [] then none
    else
      match r1.dropWhile isSpaceChar with
      | '(' :: t =>
        let n := s.length - t.length
        some (s.take (n - 1), n)
      | _ => none
  else none

/-- `count_function_calls`: call sites not named by one of the seven
excluded keywords. -/
def count_function_calls (func_body : Str) : Nat :=
  let excluded : List Str :=
    [("if".data), ("while".data), ("for".data), ("repeat".data), ("switch".data),
     ("function".data)]
  ((reFindallB matchCallSite func_body).filter (fun c => decide (c ∉ excluded))).length

/-- Matcher for the assignment patterns `(\w+)\s*OP\s*` (with `OP` one
of `<-`, `=`, `<<-`); the match includes the trailing whitespace run. -/
def matchAssignVar (op : Str) (s : Str) : Option (Str × Nat) :=
  let (w, r1) := s.span isWordChar
  if w = [] then none
  else
    let r2 := r1.dropWhile isSpaceChar
    if op.isPrefixOf r2 then
      let r3 := (r2.drop op.length).dropWhile isSpaceChar
      some (w, s.length - r3.length)
    else none

/-- Matcher for the parameter-list pattern `function\s*\(([^)]*)\)`. -/
def matchFnParams (s : Str) : Option Str :=
  if ("function".data).isPrefixOf s then
    match (s.drop 8).dropWhile isSpaceChar with
    | '(' :: r2 =>
      let run := r2.takeWhile (fun c => !(c = ')'))
      match r2.drop run.length with
      | ')' :: _ => some run
      | _ => none
    | _ => none
  else none

/-- `extract_local_variables`: assigned names (three assignment
spellings) united with declared parameter names; the Python `set` is
modelled by the deduplicated list of its elements. -/
def extract_local_variables (func_body : Str) : List Str :=
  let a1 := reFindall (matchAssignVar ('<' :: '-' :: [])) func_body
  let a2 := reFindall (matchAssignVar ('=' :: [])) func_body
  let a3 := reFindall (matchAssignVar ('<' :: '<' :: '-' :: [])) func_body
  let params :=
    match reSearch matchFnParams func_body with
    | none => []
    | some inner =>
      ((splitCharOn ',' inner).map pyStrip).filterMap
        (fun part =>
          if part = [] then none
          else some (pyStrip (part.takeWhile (fun c => !(c = '=')))))
  (a1 ++ a2 ++ a3 ++ params).dedup

/-- `group_functions_by_class`: S3-like methods grouped by class. -/
def group_functions_by_class (functions : List ParsedFunction) : List (Str × List Str) :=
  functions.foldl
    (fun d f =>
      match f.class_name with
      | some c => alSetdefaultExtend d c [f.name]
      | none => d) []

/-- `collect_classes`: S3, R6, S4 and RC class maps merged with
list-append semantics. -/
def collect_classes (pf : ParsedFile) : List (Str × List Str) :=
  let c1 := pf.r6_classes.foldl (fun d p => alSetdefaultExtend d p.1 p.2)
    (group_functions_by_class pf.functions)
  let c2 := pf.s4_classes.foldl (fun d p => alSetdefaultExtend d p.1 p.2) c1
  pf.rc_classes.foldl (fun d p => alSetdefaultExtend d p.1 p.2) c2

/-- Round-half-to-even to an integer (CPython `round` semantics,
idealised over `ℚ`).  `f` is the floor of `q` (`fdiv` is floor
division) and `r2 = 2 * den * (q - f)`, so `q - f < 1/2` iff
`r2 < den`. -/
def rhe (q : ℚ) : ℤ :=
  let f : ℤ := q.num.fdiv q.den
  let r2 : ℤ := 2 * (q.num - f * q.den)
  if r2 < q.den then f
  else if (q.den : ℤ) < r2 then f + 1
  else if 2 ∣ f then f else f + 1

/-- Python `round(x, 2)` over `ℚ`. -/
def pyRound2 (q : ℚ) : ℚ := ((rhe (q * 100) : ℚ)) / 100

/-- `LinesOfCodeMetric.compute`. -/
def loc_value (pf : ParsedFile) : Nat :=
  ((pySplitlines pf.source).filter is_code_line).length

/-- `NumberOfFunctionsMetric.compute`. -/
def nom_value (pf : ParsedFile) : Nat := pf.functions.length

/-- Per-function complexity scores of `CyclomaticComplexityMetric`. -/
def cc_scores (pf : ParsedFile) : List Nat :=
  pf.functions.map (fun f => calculate_cyclomatic_complexity f.body)

/-- The `complexities` entries `(name, start_line + 1, cc)`. -/
def cc_complexities (pf : ParsedFile) : List (Str × Nat × Nat) :=
  pf.functions.map
    (fun f => (f.name, f.start_line + 1, calculate_cyclomatic_complexity f.body))

/-- The `cc_avg` value: rounded mean of the scores, `0` without
functions. -/
def cc_avg_value (pf : ParsedFile) : ℚ :=
  let scores := cc_scores pf
  if scores = [] then 0
  else pyRound2 ((scores.map (fun n : Nat => (n : ℚ))).sum / (scores.length : ℚ))

/-- `MethodsPerClassMetric.compute`: with classes, the summed method
counts of method-bearing classes divided by the number of all classes;
otherwise the call-density fallback.  Rounded to two decimals. -/
def mpc_value (pf : ParsedFile) : ℚ :=
  let classes := collect_classes pf
  if classes ≠ [] then
    let ratios := ((classes.map (·.2)).filter (fun ms => decide (ms ≠ []))).map List.length
    pyRound2 ((ratios.map (fun n : Nat => (n : ℚ))).sum / (classes.length : ℚ))
  else
    let total_calls := (pf.functions.map (fun f => count_function_calls f.body)).sum
    if pf.functions ≠ [] then pyRound2 ((total_calls : ℚ) / (pf.functions.length : ℚ))
    else pyRound2 (total_calls : ℚ)

/-- `CouplingBetweenObjectsMetric.compute`. -/
def cbo_value (pf : ParsedFile) : Nat := pf.imports.dedup.length

/-- Python `set.isdisjoint` on list-modelled sets. -/
def pyIsdisjoint (a b : List Str) : Bool :=
  a.all (fun x => !(b.any (fun y => decide (y = x))))

/-- The nested pair loop of `LackOfCohesionMetric.compute`. -/
def countPairs : List (List Str) → Nat
  | [] => 0
  | v :: rest => (rest.countP (fun w => pyIsdisjoint v w)) + countPairs rest

/-- `LackOfCohesionMetric.compute`. -/
def lcom_value (pf : ParsedFile) : Nat :=
  let func_vars := pf.functions.map (fun f => extract_local_variables f.body)
  if func_vars.length < 2 then 0 else countPairs func_vars

/-- The `paradigm` label of `ParadigmDetectorMetric.compute` (the code
labels the procedural/default classification `"functional"`). -/
def paradigm_label (pf : ParsedFile) : String :=
  let classes := collect_classes pf
  let has_oop := decide (classes ≠ [])
  let has_functional := pf.functions.any (fun f => decide (f.class_name = none))
  if has_oop && has_functional then "mixed"
  else if has_oop then "oop"
  else "functional"

/-- The `classes` mapping (name to method count) of the paradigm
metric. -/
def classes_value (pf : ParsedFile) : List (Str × Nat) :=
  (collect_classes pf).map (fun p => (p.1, p.2.length))

/-- The `num_classes` value of the paradigm metric. -/
def num_classes_value (pf : ParsedFile) : Nat := (collect_classes pf).length

/-- Flat per-file record assembled by `FileAnalyzer._run_metrics` (all
metric outcomes merged by name, mapping-valued outcomes flattened). -/
structure FileData where
  loc : Nat
  nom : Nat
  cc_avg : ℚ
  complexities : List (Str × Nat × Nat)
  mpc : ℚ
  cbo : Nat
  lcom : Nat
  paradigm : String
  classes : List (Str × Nat)
  num_classes : Nat
  file : String
deriving Repr, DecidableEq

/-- Parse and run every metric over one text (the always-succeeding
core of `FileAnalyzer.analyze`). -/
def analyzeFileData (path : String) (text : Str) : FileData :=
  let pf := parseSource path text
  { loc := loc_value pf, nom := nom_value pf, cc_avg := cc_avg_value pf,
    complexities := cc_complexities pf, mpc := mpc_value pf, cbo := cbo_value pf,
    lcom := lcom_value pf, paradigm := paradigm_label pf, classes := classes_value pf,
    num_classes := num_classes_value pf, file := path }

/-- `FileAnalyzer.analyze`: with preloaded text, always a report; else
the disk read (modelled by `readFn`, `none` meaning unreadable or
undecodable) decides. -/
def analyzeFile (path : String) (text? : Option Str) (readFn : String → Option Str) :
    Option FileData :=
  match text? with
  | some t => some (analyzeFileData path t)
  | none =>
    match readFn path with
    | some t => some (analyzeFileData path t)
    | none => none

/-- Aggregate repository report (`RepositoryAnalyzer._build_summary`). -/
structure RepoSummary where
  repo : String
  repo_name : String
  local_repo : Option String
  total_files : Nat
  total_loc : Nat
  total_nom : Nat
  avg_cc : ℚ
  avg_mpc : ℚ
  total_cbo : Nat
  avg_lcom : ℚ
  paradigm : String
  paradigm_distribution : List (String × Nat)
  total_classes : Nat
  files : List FileData
deriving Repr, DecidableEq

/-- Python `max(counts, key=counts.get)`: first key of maximal count in
insertion order. -/
def maxKeyByVal : List (String × Nat) → String
  | [] => ""
  | p :: rest => (rest.foldl (fun best q => if best.2 < q.2 then q else best) p).1

/-- `RepositoryAnalyzer._derive_overall_paradigm`. -/
def derive_overall_paradigm (counts : List (String × Nat)) : String :=
  if counts = [] then "functional"
  else if counts.length = 1 then (counts.headD ("", 0)).1
  else if counts.any (fun p => decide (p.1 = "mixed")) ||
      (counts.any (fun p => decide (p.1 = "oop")) &&
       counts.any (fun p => decide (p.1 = "functional"))) then "mixed"
  else maxKeyByVal counts

/-- `RepositoryAnalyzer._build_summary`; the repository identifiers and
the absolutised root path come from the out-of-scope source
collaborator and enter as parameters. -/
def build_summary (repo_identifier rname : String) (local_repo : Option String)
    (files : List FileData) : RepoSummary :=
  if files = [] then
    { repo := repo_identifier, repo_name := rname, local_repo := local_repo,
      total_files := 0, total_loc := 0, total_nom := 0, avg_cc := 0, avg_mpc := 0,
      total_cbo := 0, avg_lcom := 0, paradigm := "functional",
      paradigm_distribution := [], total_classes := 0, files := [] }
  else
    let total_files := files.length
    let paradigm_counts := files.foldl (fun d f => alIncr d f.paradigm) []
    { repo := repo_identifier, repo_name := rname, local_repo := local_repo,
      total_files := total_files,
      total_loc := (files.map (·.loc)).sum,
      total_nom := (files.map (·.nom)).sum,
      avg_cc := pyRound2 ((files.map (·.cc_avg)).sum / (total_files : ℚ)),
      avg_mpc := pyRound2 ((files.map (·.mpc)).sum / (total_files : ℚ)),
      total_cbo := (files.map (·.cbo)).sum,
      avg_lcom := pyRound2 ((files.map (fun f => (f.lcom : ℚ))).sum / (total_files : ℚ)),
      paradigm := derive_overall_paradigm paradigm_counts,
      paradigm_distribution := paradigm_counts,
      total_classes := (files.map (·.num_classes)).sum,
      files := files }

/-- The per-file loop of `RepositoryAnalyzer.analyze`: files whose
analysis yields no report are skipped. -/
def processFiles (inputs : List (String × Option Str)) (readFn : String → Option Str) :
    List FileData :=
  inputs.filterMap (fun pt => analyzeFile pt.1 pt.2 readFn)

/-- `RepositoryAnalyzer.analyze` composed with `_build_summary`. -/
def analyzeRepository (repo_identifier rname : String) (local_repo : Option String)
    (inputs : List (String × Option Str)) (readFn : String → Option Str) : RepoSummary :=
  build_summary repo_identifier rname local_repo (processFiles inputs readFn)

/-- "Blank or comment line" in the sense of the spec's Scenario D:
empty after stripping, or starting with `#`. -/
def blankOrComment (l : Str) : Bool :=
  (pyStrip l).isEmpty || decide ((pyStrip l).headD ' ' = '#')

/-- Disjointness test on a two-element sublist. -/
def pairDisj2 : List (List Str) → Bool
  | [a, b] => pyIsdisjoint a b
  | _ => false

/-- The number of unordered pairs of entries whose variable sets are
completely disjoint (the claim's formulation of Lack-of-Cohesion):
every unordered pair appears exactly once among the length-2
sublists. -/
def specDisjointPairs (l : List (List Str)) : Nat :=
  ((l.sublistsLen 2).countP pairDisj2)

/-- The Methods-Per-Class value as the claim words it: the mean, taken
across classes with at least one method, of each class's method count,
rounded to two decimals. -/
def claimMpc (pf : ParsedFile) : ℚ :=
  let withMethods := ((collect_classes pf).map (·.2)).filter (fun ms => decide (ms ≠ []))
  pyRound2 (((withMethods.map List.length).map (fun n : Nat => (n : ℚ))).sum / (withMethods.length : ℚ))

/-- A parsed file with one two-method class and one method-less class,
produced by parsing a `setClass`/`setMethod` style source. -/
def pfTwoClasses : ParsedFile :=
  parseSource "classes.R"
    (("setClass(\"A\")\nsetMethod(\"m1\", \"A\")\nsetMethod(\"m2\", \"A\")\nsetClass(\"B\")").data)

/-! ### Lemmas about the brace counter (claim C9) -/

/-- `cbStep` on an escape-free state decomposes into the quote-state
step and the count delta. -/
theorem cbStep_no_esc (b : Int) (q : Bool × Bool) (c : Char) (hc : c ≠ '\\') :
    cbStep ⟨b, q.1, q.2, false⟩ c = ⟨b + bdelta q c, (qstep q c).1, (qstep q c).2, false⟩ := by
  obtain ⟨s, d⟩ := q
  simp only [cbStep, qstep, bdelta]
  split_ifs <;> (simp_all; try omega)

/-- Swapping braces does not change the quote state transition. -/
theorem qstep_swapBrace (q : Bool × Bool) (c : Char) :
    qstep q (swapBrace c) = qstep q c := by
  by_cases h1 : c = '{' <;> by_cases h2 : c = '}' <;> simp_all [swapBrace, qstep]

/-- Each quote-state step is an involution. -/
theorem qstep_invol (q : Bool × Bool) (c : Char) : qstep (qstep q c) c = q := by
  obtain ⟨s, d⟩ := q
  by_cases h1 : c = '\'' <;> by_cases h2 : c = '"' <;> cases s <;> cases d <;>
    simp_all [qstep]

/-- A character and its brace-swap contribute opposite deltas in the
respective states of the forward scan. -/
theorem bdelta_cancel (q : Bool × Bool) (c : Char) :
    bdelta (qstep q c) (swapBrace c) = - bdelta q c := by
  obtain ⟨s, d⟩ := q
  by_cases h1 : c = '{' <;> by_cases h2 : c = '}' <;> by_cases h3 : c = '\'' <;>
    by_cases h4 : c = '"' <;> cases s <;> cases d <;>
    simp_all [bdelta, qstep, swapBrace]

/-- Brace swapping never produces a backslash. -/
theorem swapBrace_ne_bs {c : Char} (h : c ≠ '\\') : swapBrace c ≠ '\\' := by
  by_cases h1 : c = '{' <;> by_cases h2 : c = '}' <;> simp_all [swapBrace]

/-- Scanning a backslash-free text followed by its brace-swapped
reverse returns the scanner to its starting state. -/
theorem foldl_mirror (t : Str) : ∀ (q : Bool × Bool) (b : Int), (∀ c ∈ t, c ≠ '\\') →
    List.foldl cbStep ⟨b, q.1, q.2, false⟩ (t ++ mirrorOf t) = ⟨b, q.1, q.2, false⟩ := by
  induction t with
  | nil => intro q b _; simp [mirrorOf]
  | cons c t ih =>
    intro q b h
    have hc : c ≠ '\\' := h c (List.mem_cons_self ..)
    have ht : ∀ x ∈ t, x ≠ '\\' := fun x hx => h x (List.mem_cons_of_mem _ hx)
    have hmir : mirrorOf (c :: t) = mirrorOf t ++ [swapBrace c] := by
      simp [mirrorOf]
    have hassoc : (c :: t) ++ mirrorOf (c :: t) =
        c :: ((t ++ mirrorOf t) ++ [swapBrace c]) := by
      rw [hmir]; simp
    rw [hassoc, List.foldl_cons, cbStep_no_esc b q c hc, List.foldl_append,
      ih (qstep q c) (b + bdelta q c) ht, List.foldl_cons, List.foldl_nil,
      cbStep_no_esc _ _ _ (swapBrace_ne_bs hc), bdelta_cancel, qstep_swapBrace,
      qstep_invol]
    simp

/-- Claim C9 (amended): for every backslash-free text `t`, the
quote/escape-aware brace counter applied to `t` followed by its exact
reverse-concatenation with matching open/close braces returns to zero.
(The escape lookahead breaks the invariant in the presence of
backslashes; see the counterexample.) -/
theorem c9_mirror_balance (t : Str) (h : '\\' ∉ t) :
    count_braces (t ++ mirrorOf t) = 0 := by
  have hne : ∀ c ∈ t, c ≠ '\\' := fun c hc he => h (he ▸ hc)
  have := foldl_mirror t (false, false) 0 hne
  simp only [count_braces, this]

/-- Witness for C9 (amended) at the concrete text `a{'`. -/
theorem c9_mirror_balance_witness :
    ('\\' ∉ ('a' :: '{' :: '\'' :: [])) ∧
      count_braces (('a' :: '{' :: '\'' :: []) ++ mirrorOf ('a' :: '{' :: '\'' :: [])) = 0 :=
  ⟨by decide, c9_mirror_balance ('a' :: '{' :: '\'' :: []) (by decide)⟩

/-- Counterexample to claim C9 as stated: for the text `\{` (backslash
before an open brace) the concatenation with its mirror does not
balance — the backslash escapes the opening brace, while the mirrored
closing brace is still counted. -/
theorem c9_counterexample :
    count_braces (('\\' :: '{' :: []) ++ mirrorOf ('\\' :: '{' :: [])) = -1 ∧
      ¬ count_braces (('\\' :: '{' :: []) ++ mirrorOf ('\\' :: '{' :: [])) = 0 := by
  constructor
  · rfl
  · decide

/-! ### Scenario and aggregation claims (C5, C7, C8, C10) -/

/-- Claim C5: the one-line source
`f <- function(x) { if (x > 0) { return(1) } else { return(-1) } }`
yields exactly one function record (the whole line, start line 0, no
owning class) whose cyclomatic complexity is 3 = 1 + one `if` + one
`else`. -/
theorem c5_scenario_a :
    extract_functions (("f <- function(x) \x7b if (x > 0) \x7b return(1) \x7d else \x7b return(-1) \x7d \x7d").data) =
      [⟨("f".data),
        ("f <- function(x) \x7b if (x > 0) \x7b return(1) \x7d else \x7b return(-1) \x7d \x7d").data,
        0, none⟩] ∧
    calculate_cyclomatic_complexity
      (("f <- function(x) \x7b if (x > 0) \x7b return(1) \x7d else \x7b return(-1) \x7d \x7d").data) = 3 :=
  ⟨rfl, rfl⟩

/-- Claim C7: a repository analysis over an empty file list yields the
fully populated zero-valued report, with the paradigm defaulting to the
code's `"functional"` label for the procedural classification; no
division is performed (the zero record is returned directly). -/
theorem c7_empty_corpus (rid rname : String) (lr : Option String)
    (readFn : String → Option Str) :
    analyzeRepository rid rname lr [] readFn =
      { repo := rid, repo_name := rname, local_repo := lr, total_files := 0, total_loc := 0,
        total_nom := 0, avg_cc := 0, avg_mpc := 0, total_cbo := 0, avg_lcom := 0,
        paradigm := "functional", paradigm_distribution := [], total_classes := 0,
        files := [] } ∧
    build_summary rid rname lr [] =
      { repo := rid, repo_name := rname, local_repo := lr, total_files := 0, total_loc := 0,
        total_nom := 0, avg_cc := 0, avg_mpc := 0, total_cbo := 0, avg_lcom := 0,
        paradigm := "functional", paradigm_distribution := [], total_classes := 0,
        files := [] } :=
  ⟨rfl, rfl⟩

/-- The length of a `filterMap` is the count of inputs on which the
function succeeds. -/
theorem length_filterMap_eq_countP (f : α → Option β) (l : List α) :
    (l.filterMap f).length = l.countP (fun a => (f a).isSome) := by
  induction l with
  | nil => rfl
  | cons a l ih =>
    cases h : f a <;> simp [List.filterMap_cons, h, List.countP_cons, ih]

/-- The report's `total_files` is the length of the file list. -/
theorem build_summary_total_files (rid rname : String) (lr : Option String)
    (fs : List FileData) : (build_summary rid rname lr fs).total_files = fs.length := by
  by_cases h : fs = [] <;> simp [build_summary, h]

/-- The report's `files` field is the file list itself. -/
theorem build_summary_files (rid rname : String) (lr : Option String)
    (fs : List FileData) : (build_summary rid rname lr fs).files = fs := by
  by_cases h : fs = [] <;> simp [build_summary, h]

/-- Claim C8: `total_files` equals the number of files for which
`analyzeFile` returned a report (skipped files are not counted), and it
is zero exactly when the report's `files` list is empty. -/
theorem c8_total_files (rid rname : String) (lr : Option String)
    (inputs : List (String × Option Str)) (readFn : String → Option Str) :
    (analyzeRepository rid rname lr inputs readFn).total_files =
        inputs.countP (fun pt => (analyzeFile pt.1 pt.2 readFn).isSome) ∧
    ((analyzeRepository rid rname lr inputs readFn).total_files = 0 ↔
        (analyzeRepository rid rname lr inputs readFn).files = []) := by
  unfold analyzeRepository
  constructor
  · rw [build_summary_total_files]
    exact length_filterMap_eq_countP _ inputs
  · rw [build_summary_total_files, build_summary_files]
    exact List.length_eq_zero

/-- Claim C10: with preloaded text, `analyzeFile` always returns a
report (parsing and all metric units are total); the absent value can
arise only when the text must be read and the read fails. -/
theorem c10_preloaded_total (path : String) (t : Str) (readFn : String → Option Str) :
    analyzeFile path (some t) readFn = some (analyzeFileData path t) ∧
    ∀ (p2 : String) (r2 : String → Option Str),
        (analyzeFile p2 none r2 = none ↔ r2 p2 = none) := by
  refine ⟨rfl, fun p2 r2 => ?_⟩
  cases h : r2 p2 <;> simp [analyzeFile, h]

/-! ### Rounding helpers and the MPC claim (C3) -/

/-- Round-half-to-even of an integer is itself. -/
theorem rhe_intCast (m : ℤ) : rhe ((m : ℚ)) = m := by
  unfold rhe
  norm_num

/-- `round(x, 2)` of a natural number is itself. -/
theorem pyRound2_natCast (n : ℕ) : pyRound2 ((n : ℚ)) = n := by
  unfold pyRound2
  have h1 : ((n : ℚ)) * 100 = (((n * 100 : ℕ) : ℤ) : ℚ) := by push_cast; ring
  rw [h1, rhe_intCast]
  push_cast
  field_simp

/-- `round(1, 2) = 1`. -/
theorem pyRound2_one : pyRound2 1 = 1 := by simpa using pyRound2_natCast 1

/-- `round(2, 2) = 2`. -/
theorem pyRound2_two : pyRound2 2 = 2 := by simpa using pyRound2_natCast 2

/-- Dropping the empty lists before summing lengths changes nothing. -/
theorem sum_len_filter_ne_nil (l : List (List Str)) :
    (((l.filter (fun ms => decide (ms ≠ []))).map List.length).map (fun n : Nat => (n : ℚ))).sum
      = ((l.map List.length).map (fun n : Nat => (n : ℚ))).sum := by
  induction l with
  | nil => rfl
  | cons ms l ih =>
    by_cases h : ms = []
    · subst h
      rw [show (([] :: l).filter (fun ms => decide (ms ≠ [])))
            = l.filter (fun ms => decide (ms ≠ [])) from rfl]
      simp only [List.map_cons, List.sum_cons, List.length_nil, Nat.cast_zero, zero_add, ih]
    · have hd : (fun ms : List Str => decide (ms ≠ [])) ms = true := by simpa using h
      rw [List.filter_cons, if_pos hd, List.map_cons, List.map_cons, List.sum_cons,
        List.map_cons, List.map_cons, List.sum_cons, ih]

/-- With a non-empty class mapping, the MPC value is the total method
count over all classes divided by the number of all classes. -/
theorem mpc_all_classes_mean (pf : ParsedFile) (h : collect_classes pf ≠ []) :
    mpc_value pf =
      pyRound2 ((((collect_classes pf).map (fun p => p.2.length)).map
        (fun n : Nat => (n : ℚ))).sum / ((collect_classes pf).length : ℚ)) := by
  unfold mpc_value
  rw [if_pos h]
  dsimp only
  rw [sum_len_filter_ne_nil]
  simp only [List.map_map]
  rfl

/-- Claim C3 (amended): for a parsed file with a non-empty merged class
mapping, Methods-Per-Class is the total method count (summed over all
classes; method-less classes contribute nothing to the numerator but do
enter the divisor) divided by the number of all classes, rounded to two
decimals. -/
theorem c3_mpc_divisor (pf : ParsedFile) (h : collect_classes pf ≠ []) :
    mpc_value pf =
      pyRound2 ((((collect_classes pf).map (fun p => p.2.length)).map
        (fun n : Nat => (n : ℚ))).sum / ((collect_classes pf).length : ℚ)) :=
  mpc_all_classes_mean pf h

/-- Witness for C3 (amended) at the two-class parsed file. -/
theorem c3_mpc_divisor_witness :
    collect_classes pfTwoClasses ≠ [] ∧
      mpc_value pfTwoClasses =
        pyRound2 ((((collect_classes pfTwoClasses).map (fun p => p.2.length)).map
          (fun n : Nat => (n : ℚ))).sum / ((collect_classes pfTwoClasses).length : ℚ)) :=
  ⟨by decide, c3_mpc_divisor pfTwoClasses (by decide)⟩

/-- Counterexample to claim C3 as stated: on a file with classes
`A ↦ [m1, m2]` and `B ↦ []`, the code computes `2 / 2 = 1` (method-less
`B` enters the divisor), while the claim's mean across classes with at
least one method is `2 / 1 = 2`. -/
theorem c3_counterexample :
    mpc_value pfTwoClasses = 1 ∧ claimMpc pfTwoClasses = 2 ∧
      ¬ mpc_value pfTwoClasses = claimMpc pfTwoClasses := by
  have hc : collect_classes pfTwoClasses =
      [(['A'], [['m', '1'], ['m', '2']]), (['B'], [])] := by decide
  have h1 : mpc_value pfTwoClasses = 1 := by
    rw [mpc_all_classes_mean pfTwoClasses (by rw [hc]; exact by decide), hc]
    norm_num [pyRound2_one]
  have h2 : claimMpc pfTwoClasses = 2 := by
    unfold claimMpc
    rw [hc]
    dsimp only
    have hne : ¬([['m', '1'], ['m', '2']] : List Str) = [] := by decide
    norm_num [List.filter_cons, List.filter_nil, if_neg hne, pyRound2_two]
  exact ⟨h1, h2, by rw [h1, h2]; norm_num⟩

/-! ### The Lack-of-Cohesion claim (C6) -/

/-- Counting over a reversed list counts the same matches. -/
theorem countP_reverse_eq (p : α → Bool) (l : List α) : l.reverse.countP p = l.countP p := by
  rw [List.countP_eq_length_filter, List.countP_eq_length_filter, List.filter_reverse,
    List.length_reverse]

/-- The nested pair loop counts exactly the disjoint unordered pairs. -/
theorem countPairs_eq_spec (l : List (List Str)) : countPairs l = specDisjointPairs l := by
  induction l with
  | nil => rfl
  | cons v rest ih =>
    unfold countPairs specDisjointPairs
    rw [List.sublistsLen_succ_cons, List.countP_append, List.sublistsLen_one,
      List.countP_map, List.countP_map, countP_reverse_eq]
    unfold specDisjointPairs at ih
    rw [ih]
    have h2 : List.countP ((pairDisj2 ∘ List.cons v) ∘ fun b => [b]) rest
        = List.countP (fun w => pyIsdisjoint v w) rest := rfl
    have h3 : (1 + 1) = 2 := rfl
    rw [h2, h3]
    omega

/-- Fewer than two entries admit no pairs. -/
theorem specDisjointPairs_short (l : List (List Str)) (h : l.length < 2) :
    specDisjointPairs l = 0 := by
  match l, h with
  | [], _ => rfl
  | [v], _ => rfl

/-- Claim C6: the Lack-of-Cohesion value is the number of unordered
pairs of functions whose assigned-variable-plus-parameter name sets are
completely disjoint (a raw, unnormalised count), and it is 0 when the
file has fewer than two functions. -/
theorem c6_lcom_pairs (pf : ParsedFile) :
    lcom_value pf =
      specDisjointPairs (pf.functions.map (fun f => extract_local_variables f.body)) ∧
    (pf.functions.length < 2 → lcom_value pf = 0) := by
  unfold lcom_value
  dsimp only
  constructor
  · by_cases h : (pf.functions.map (fun f => extract_local_variables f.body)).length < 2
    · rw [if_pos h, specDisjointPairs_short _ h]
    · rw [if_neg h, countPairs_eq_spec]
  · intro h
    rw [if_pos]
    simpa using h

/-- Witness for C6 at a three-function file in which every pair of
functions has disjoint variable sets: the count is 3 (every pair). -/
theorem c6_lcom_pairs_witness :
    lcom_value (parseSource "e.R"
        (("f <- function(a) \x7b x <- 1 \x7d\ng <- function(b) \x7b y <- 2 \x7d\nh <- function(c) \x7b z <- 3 \x7d").data)) =
      specDisjointPairs ((parseSource "e.R"
        (("f <- function(a) \x7b x <- 1 \x7d\ng <- function(b) \x7b y <- 2 \x7d\nh <- function(c) \x7b z <- 3 \x7d").data)).functions.map
          (fun f => extract_local_variables f.body)) ∧
    lcom_value (parseSource "e.R"
        (("f <- function(a) \x7b x <- 1 \x7d\ng <- function(b) \x7b y <- 2 \x7d\nh <- function(c) \x7b z <- 3 \x7d").data)) = 3 :=
  ⟨(c6_lcom_pairs (parseSource "e.R"
      (("f <- function(a) \x7b x <- 1 \x7d\ng <- function(b) \x7b y <- 2 \x7d\nh <- function(c) \x7b z <- 3 \x7d").data))).1,
    by decide⟩

/-! ### Pattern-literal lemmas and the comment-only-file claim (C4) -/

/-- An in-range `getD` is a member of the list. -/
theorem getD_mem_of_lt (l : List Str) (i : Nat) (h : i < l.length) : l.getD i [] ∈ l := by
  rw [List.getD_eq_getElem?_getD, List.getElem?_eq_getElem h]
  exact List.getElem_mem h

/-- A successful assignment-tail match contains the callee literal. -/
theorem afterAssign_lit {callee r rest : Str} (h : afterAssign callee r = some rest) :
    callee <:+: r := by
  unfold afterAssign at h
  dsimp only at h
  split at h
  · exact absurd h (by simp)
  next r2 heq =>
    have hs2 : r2 <:+ r := by
      have hs1 : r.dropWhile isSpaceChar <:+ r := List.dropWhile_suffix _
      split at heq
      next t ht => exact (Option.some.inj heq) ▸ (show t <:+ r from (ht ▸ ⟨['<', '-'], rfl⟩ :
        t <:+ r.dropWhile isSpaceChar).trans hs1)
      next t ht => exact (Option.some.inj heq) ▸ (show t <:+ r from (ht ▸ ⟨['='], rfl⟩ :
        t <:+ r.dropWhile isSpaceChar).trans hs1)
      next => exact absurd heq (by simp)
    by_cases hp : callee.isPrefixOf (r2.dropWhile isSpaceChar)
    · have hpre : callee <+: r2.dropWhile isSpaceChar := List.isPrefixOf_iff_prefix.mp hp
      have hs3 : r2.dropWhile isSpaceChar <:+ r2 := List.dropWhile_suffix _
      exact hpre.isInfix.trans ((hs3.trans hs2).isInfix)
    · rw [if_neg hp] at h; exact absurd h (by simp)

/-- A successful definition-pattern match contains the callee literal. -/
theorem matchNameAssign_lit {allowDot : Bool} {callee s : Str} {x : Str × Nat}
    (h : matchNameAssign allowDot callee s = some x) : callee <:+: s := by
  unfold matchNameAssign at h
  simp only [List.span_eq_take_drop] at h
  have hs1 : s.dropWhile isWordChar <:+ s := List.dropWhile_suffix _
  split at h
  · exact absurd h (by simp)
  · split at h
    next y hw =>
      split at hw
      · split at hw
        next r1b hr1b =>
          split at hw
          · exact absurd hw (by simp)
          · split at hw
            next rest hA =>
              have h2 : r1b.dropWhile isWordChar <:+ s :=
                (List.dropWhile_suffix _).trans ((hr1b ▸ ⟨['.'], rfl⟩ :
                  r1b <:+ s.dropWhile isWordChar).trans hs1)
              exact (afterAssign_lit hA).trans h2.isInfix
            next hA => exact absurd hw (by simp)
        next => exact absurd hw (by simp)
      · exact absurd hw (by simp)
    next hw =>
      split at h
      next rest hA => exact (afterAssign_lit hA).trans hs1.isInfix
      next => exact absurd h (by simp)

/-- A successful search happens at some suffix of the text. -/
theorem reSearch_some_suffix {m : Str → Option α} {s : Str} {a : α}
    (h : reSearch m s = some a) : ∃ t, t <:+ s ∧ m t = some a := by
  induction s with
  | nil => exact ⟨[], List.suffix_refl _, h⟩
  | cons c rest ih =>
    unfold reSearch at h
    cases hm : m (c :: rest) with
    | some b => rw [hm] at h; exact ⟨c :: rest, List.suffix_refl _, by rw [hm]; exact h⟩
    | none =>
      rw [hm] at h
      obtain ⟨t, ht, hmt⟩ := ih h
      exact ⟨t, ht.trans (List.suffix_cons c rest), hmt⟩

/-- A line matching the function-definition pattern contains the
literal `function`. -/
theorem searchFuncDef_some_lit {line nm : Str} (h : searchFuncDef line = some nm) :
    (("function").data) <:+: line := by
  unfold searchFuncDef at h
  obtain ⟨t, ht, hmt⟩ := reSearch_some_suffix h
  cases hm : matchNameAssign true (("function").data) t with
  | none => rw [hm] at hmt; exact absurd hmt (by simp)
  | some x => exact (matchNameAssign_lit hm).trans ht.isInfix

/-- A line matching the R6 pattern contains the literal `R6Class`. -/
theorem searchR6_some_lit {line nm : Str} (h : searchR6 line = some nm) :
    (("R6Class").data) <:+: line := by
  unfold searchR6 at h
  obtain ⟨t, ht, hmt⟩ := reSearch_some_suffix h
  cases hm : matchNameAssign false (("R6Class").data) t with
  | none => rw [hm] at hmt; exact absurd hmt (by simp)
  | some x => exact (matchNameAssign_lit hm).trans ht.isInfix

/-- Without the literal `function`, the definition pattern cannot
match. -/
theorem searchFuncDef_eq_none {line : Str} (h : ¬ (("function").data) <:+: line) :
    searchFuncDef line = none := by
  cases hs : searchFuncDef line with
  | none => rfl
  | some nm => exact absurd (searchFuncDef_some_lit hs) h

/-- Without the literal `R6Class`, the R6 pattern cannot match. -/
theorem searchR6_eq_none {line : Str} (h : ¬ (("R6Class").data) <:+: line) :
    searchR6 line = none := by
  cases hs : searchR6 line with
  | none => rfl
  | some nm => exact absurd (searchR6_some_lit hs) h

/-- Splitting never yields an empty piece list. -/
theorem splitCharOn_ne_nil (sep : Char) (s : Str) : splitCharOn sep s ≠ [] := by
  cases s with
  | nil => simp [splitCharOn]
  | cons c rest =>
    unfold splitCharOn
    cases hs : splitCharOn sep rest with
    | nil => by_cases hc : c = sep <;> simp [hc]
    | cons p ps => by_cases hc : c = sep <;> simp [hc]

/-- The first split piece is a prefix of the text. -/
theorem splitCharOn_head_isPre (sep : Char) :
    ∀ (s : Str) (p : Str) (ps : List Str), splitCharOn sep s = p :: ps → p <+: s := by
  intro s
  induction s with
  | nil =>
    intro p ps h
    injection h with h1 h2
    rw [← h1]
  | cons c rest ih =>
    intro p ps h
    unfold splitCharOn at h
    cases hs : splitCharOn sep rest with
    | nil => exact absurd hs (splitCharOn_ne_nil sep rest)
    | cons q qs =>
      rw [hs] at h
      dsimp only at h
      by_cases hc : c = sep
      · rw [if_pos hc] at h
        rw [← (List.cons.inj h).1]
        exact List.nil_prefix
      · rw [if_neg hc] at h
        obtain ⟨t, ht⟩ := ih q qs hs
        rw [← (List.cons.inj h).1]
        exact ⟨t, by rw [List.cons_append, ht]⟩

/-- Every split piece occurs inside the text. -/
theorem splitCharOn_infix (sep : Char) :
    ∀ (s : Str) (p : Str), p ∈ splitCharOn sep s → p <:+: s := by
  intro s
  induction s with
  | nil =>
    intro p hp
    rcases List.mem_cons.mp hp with hp | hp
    · rw [hp]
    · cases hp
  | cons c rest ih =>
    intro p hp
    unfold splitCharOn at hp
    cases hs : splitCharOn sep rest with
    | nil => exact absurd hs (splitCharOn_ne_nil sep rest)
    | cons q qs =>
      rw [hs] at hp
      dsimp only at hp
      by_cases hc : c = sep
      · rw [if_pos hc] at hp
        rcases List.mem_cons.mp hp with hp | hp
        · rw [hp]
          exact List.nil_infix
        · exact List.infix_cons (ih p (hs ▸ hp))
      · rw [if_neg hc] at hp
        rcases List.mem_cons.mp hp with hp | hp
        · rw [hp]
          obtain ⟨t, ht⟩ := splitCharOn_head_isPre sep rest q qs hs
          exact ⟨[], t, by rw [List.nil_append, List.cons_append, ht]⟩
        · exact List.infix_cons (ih p (by rw [hs]; exact List.mem_cons_of_mem _ hp))

/-- Unfolding equation for the findall scanner. -/
theorem reFindallAux_succ {α : Type} (m : Str → Option (α × Nat)) (fuel : Nat) (s : Str) :
    reFindallAux m (fuel + 1) s =
      match m s with
      | some (a, n) => a :: reFindallAux m fuel (s.drop (max n 1))
      | none =>
        match s with
        | [] => []
        | _ :: rest => reFindallAux m fuel rest := rfl

/-- A matcher failing on every suffix yields an empty findall. -/
theorem reFindallAux_eq_nil {α : Type} {m : Str → Option (α × Nat)} :
    ∀ (fuel : Nat) (s : Str), (∀ t, t <:+ s → m t = none) → reFindallAux m fuel s = [] := by
  intro fuel
  induction fuel with
  | zero => intro s h; rfl
  | succ fuel ih =>
    intro s h
    rw [reFindallAux_succ, h s (List.suffix_refl s)]
    cases s with
    | nil => rfl
    | cons c rest => exact ih rest (fun t ht => h t (ht.trans (List.suffix_cons c rest)))

/-- A successful `setClass` match starts with the literal `setClass`. -/
theorem matchSetClass_lit {s : Str} {x : Str × Nat} (h : matchSetClass s = some x) :
    (("setClass").data) <+: s := by
  unfold matchSetClass at h
  by_cases hp : (("setClass").data).isPrefixOf s
  · exact List.isPrefixOf_iff_prefix.mp hp
  · rw [if_neg hp] at h; exact absurd h (by simp)

/-- A successful `setMethod` match starts with the literal
`setMethod`. -/
theorem matchSetMethod_lit {s : Str} {x : (Str × Str) × Nat} (h : matchSetMethod s = some x) :
    (("setMethod").data) <+: s := by
  unfold matchSetMethod at h
  by_cases hp : (("setMethod").data).isPrefixOf s
  · exact List.isPrefixOf_iff_prefix.mp hp
  · rw [if_neg hp] at h; exact absurd h (by simp)

/-- A successful `setRefClass` match starts with the literal
`setRefClass`. -/
theorem matchSetRefClass_lit {s : Str} {x : Str × Nat} (h : matchSetRefClass s = some x) :
    (("setRefClass").data) <+: s := by
  unfold matchSetRefClass at h
  by_cases hp : (("setRefClass").data).isPrefixOf s
  · exact List.isPrefixOf_iff_prefix.mp hp
  · rw [if_neg hp] at h; exact absurd h (by simp)

/-- Without the literal `setClass` no class declaration is found. -/
theorem findall_setClass_nil {s : Str} (h : ¬ (("setClass").data) <:+: s) :
    reFindall matchSetClass s = [] := by
  unfold reFindall
  apply reFindallAux_eq_nil
  intro t ht
  cases hm : matchSetClass t with
  | none => rfl
  | some x => exact absurd ((matchSetClass_lit hm).isInfix.trans ht.isInfix) h

/-- Without the literal `setMethod` no method registration is found. -/
theorem findall_setMethod_nil {s : Str} (h : ¬ (("setMethod").data) <:+: s) :
    reFindall matchSetMethod s = [] := by
  unfold reFindall
  apply reFindallAux_eq_nil
  intro t ht
  cases hm : matchSetMethod t with
  | none => rfl
  | some x => exact absurd ((matchSetMethod_lit hm).isInfix.trans ht.isInfix) h

/-- Without the literal `setRefClass` no reference class is found. -/
theorem findall_setRefClass_nil {s : Str} (h : ¬ (("setRefClass").data) <:+: s) :
    reFindall matchSetRefClass s = [] := by
  unfold reFindall
  apply reFindallAux_eq_nil
  intro t ht
  cases hm : matchSetRefClass t with
  | none => rfl
  | some x => exact absurd ((matchSetRefClass_lit hm).isInfix.trans ht.isInfix) h

/-- If no line matches the definition pattern, extraction is empty. -/
theorem extractAux_nil (lines : List Str) (h : ∀ l ∈ lines, searchFuncDef l = none) :
    ∀ (fuel i : Nat), extractAux lines fuel i = [] := by
  intro fuel
  induction fuel with
  | zero => intro i; rfl
  | succ fuel ih =>
    intro i
    unfold extractAux
    by_cases hi : i < lines.length
    · rw [if_pos hi]
      dsimp only
      rw [h _ (getD_mem_of_lt lines i hi)]
      exact ih (i + 1)
    · rw [if_neg hi]

/-- If no line matches the R6 pattern, no R6 class is collected. -/
theorem r6Aux_nil (lines : List Str) (h : ∀ l ∈ lines, searchR6 l = none) :
    ∀ (fuel i : Nat) (acc : List (Str × List Str)), r6Aux lines fuel i acc = acc := by
  intro fuel
  induction fuel with
  | zero => intro i acc; rfl
  | succ fuel ih =>
    intro i acc
    unfold r6Aux
    by_cases hi : i < lines.length
    · rw [if_pos hi, h _ (getD_mem_of_lt lines i hi)]
      exact ih (i + 1) acc
    · rw [if_neg hi]

/-- Blank and comment lines are never code lines. -/
theorem is_code_line_of_blank (l : Str) (h : blankOrComment l = true) :
    is_code_line l = false := by
  unfold is_code_line
  by_cases h1 : pyStrip l = []
  · rw [if_pos h1]
  · rw [if_neg h1]
    have h2 : (pyStrip l).headD ' ' = '#' := by
      unfold blankOrComment at h
      rcases Bool.or_eq_true_iff.mp h with h' | h'
      · exact absurd (List.isEmpty_iff.mp h') h1
      · exact of_decide_eq_true h'
    rw [if_pos h2]

/-- `splitlines` produces a subset of the `split("\n")` pieces. -/
theorem pySplitlines_sub (src : Str) : pySplitlines src ⊆ splitCharOn '\n' src := by
  unfold pySplitlines
  split
  · exact List.nil_subset _
  · split
    · exact List.dropLast_subset _
    · exact fun _ h => h

/-- Claim C4 (amended): a file of blank and comment lines reports
LOC 0, no functions, average complexity 0 and the `"functional"`
(procedural/default) paradigm, provided the comment text nowhere
contains the literals `function`, `R6Class`, `setClass`, `setMethod` or
`setRefClass` — text matching those patterns inside a comment would
re-trigger the heuristic extractors (see the counterexample). -/
theorem c4_comment_only (path : String) (src : Str)
    (hb : ∀ l ∈ splitCharOn '\n' src, blankOrComment l = true)
    (hfn : ¬ (("function").data) <:+: src)
    (hr6 : ¬ (("R6Class").data) <:+: src)
    (hsc : ¬ (("setClass").data) <:+: src)
    (hsm : ¬ (("setMethod").data) <:+: src)
    (hsr : ¬ (("setRefClass").data) <:+: src) :
    (analyzeFileData path src).loc = 0 ∧ (analyzeFileData path src).nom = 0 ∧
      (analyzeFileData path src).cc_avg = 0 ∧
      (analyzeFileData path src).paradigm = "functional" := by
  have hlinf : ∀ l ∈ splitCharOn '\n' src, l <:+: src := splitCharOn_infix '\n' src
  have hfnone : ∀ l ∈ splitCharOn '\n' src, searchFuncDef l = none := fun l hl =>
    searchFuncDef_eq_none (fun hinf => hfn (hinf.trans (hlinf l hl)))
  have hfs : extract_functions src = [] := extractAux_nil _ hfnone _ _
  have h6 : extract_r6_classes src = [] :=
    r6Aux_nil _ (fun l hl => searchR6_eq_none (fun hinf => hr6 (hinf.trans (hlinf l hl)))) _ _ _
  have h4 : extract_s4_classes src = [] := by
    unfold extract_s4_classes
    rw [findall_setClass_nil hsc, findall_setMethod_nil hsm]
    rfl
  have hrc : extract_reference_classes src = [] := by
    unfold extract_reference_classes
    rw [findall_setRefClass_nil hsr]
    rfl
  refine ⟨?_, ?_, ?_, ?_⟩
  · show loc_value (parseSource path src) = 0
    unfold loc_value
    rw [List.length_eq_zero, List.filter_eq_nil_iff]
    intro l hl
    rw [is_code_line_of_blank l (hb l (pySplitlines_sub src hl))]
    simp
  · show nom_value (parseSource path src) = 0
    unfold nom_value parseSource
    dsimp only
    rw [hfs]
    rfl
  · show cc_avg_value (parseSource path src) = 0
    unfold cc_avg_value cc_scores parseSource
    dsimp only
    rw [hfs]
    rfl
  · show paradigm_label (parseSource path src) = "functional"
    unfold paradigm_label collect_classes group_functions_by_class parseSource
    dsimp only
    rw [hfs, h6, h4, hrc]
    rfl

/-- Witness for C4 (amended) at a two-comment file. -/
theorem c4_comment_only_witness :
    (analyzeFileData "w.R" (("# just a comment\n\n# more text").data)).loc = 0 ∧
      (analyzeFileData "w.R" (("# just a comment\n\n# more text").data)).nom = 0 ∧
      (analyzeFileData "w.R" (("# just a comment\n\n# more text").data)).cc_avg = 0 ∧
      (analyzeFileData "w.R" (("# just a comment\n\n# more text").data)).paradigm = "functional" :=
  c4_comment_only "w.R" (("# just a comment\n\n# more text").data)
    (by decide) (by decide) (by decide) (by decide) (by decide) (by decide)

/-- Counterexample to claim C4 as stated: the one-line file
`# f <- function(x) {}` consists only of comment lines, yet the
extractor's regular expression also fires inside comments, so the
function count is 1, not 0. -/
theorem c4_counterexample :
    (∀ l ∈ splitCharOn '\n' (("# f <- function(x) \x7b\x7d").data), blankOrComment l = true) ∧
      (analyzeFileData "c.R" (("# f <- function(x) \x7b\x7d").data)).nom = 1 :=
  ⟨by decide, rfl⟩

/-! ### Extraction-span invariants (claims C1 and C2) -/

/-- Unfolding of an inclusive line slice at its left end. -/
theorem sliceLines_cons (lines : List Str) (a b : Nat) (hab : a ≤ b) (ha : a < lines.length) :
    sliceLines lines a b = lines.getD a [] :: sliceLines lines (a + 1) b := by
  unfold sliceLines
  rw [List.drop_eq_getElem_cons ha, List.getD_eq_getElem?_getD, List.getElem?_eq_getElem ha]
  have h1 : b + 1 - a = (b + 1 - (a + 1)) + 1 := by omega
  rw [h1, List.take_succ_cons]
  simp

/-- Length of an inclusive line slice. -/
theorem sliceLines_length (lines : List Str) (a b : Nat) (hab : a ≤ b) (hb : b < lines.length) :
    (sliceLines lines a b).length = b + 1 - a := by
  unfold sliceLines
  rw [List.length_take, List.length_drop]
  omega

/-- A line slice draws its elements from the line list. -/
theorem sliceLines_subset (lines : List Str) (a b : Nat) : sliceLines lines a b ⊆ lines :=
  (List.take_subset _ _).trans (List.drop_subset a lines)

/-- Split pieces never contain the separator. -/
theorem splitCharOn_sep_not_mem (sep : Char) :
    ∀ (s : Str) (p : Str), p ∈ splitCharOn sep s → sep ∉ p := by
  intro s
  induction s with
  | nil =>
    intro p hp
    rcases List.mem_cons.mp hp with hp | hp
    · rw [hp]; exact List.not_mem_nil sep
    · cases hp
  | cons c rest ih =>
    intro p hp
    unfold splitCharOn at hp
    cases hs : splitCharOn sep rest with
    | nil => exact absurd hs (splitCharOn_ne_nil sep rest)
    | cons q qs =>
      rw [hs] at hp
      dsimp only at hp
      by_cases hc : c = sep
      · rw [if_pos hc] at hp
        rcases List.mem_cons.mp hp with hp | hp
        · rw [hp]; exact List.not_mem_nil sep
        · exact ih p (hs ▸ hp)
      · rw [if_neg hc] at hp
        rcases List.mem_cons.mp hp with hp | hp
        · rw [hp]
          intro hmem
          rcases List.mem_cons.mp hmem with hmem | hmem
          · exact hc hmem.symm
          · exact ih q (by rw [hs]; exact List.mem_cons_self .. ) hmem
        · exact ih p (by rw [hs]; exact List.mem_cons_of_mem _ hp)

/-- A separator-free text splits into itself. -/
theorem splitCharOn_single (sep : Char) :
    ∀ (p : Str), sep ∉ p → splitCharOn sep p = [p] := by
  intro p
  induction p with
  | nil => intro _; rfl
  | cons c rest ih =>
    intro h
    have hc : ¬ c = sep := fun e => h (e ▸ List.mem_cons_self ..)
    unfold splitCharOn
    rw [ih (fun hm => h (List.mem_cons_of_mem _ hm))]
    dsimp only
    rw [if_neg hc]

/-- Unfolding equation of `splitCharOn`. -/
theorem splitCharOn_cons_eq (sep c : Char) (rest : Str) :
    splitCharOn sep (c :: rest) =
      match splitCharOn sep rest with
      | [] => if c = sep then [[], []] else [[c]]
      | p :: ps => if c = sep then [] :: p :: ps else (c :: p) :: ps := rfl

/-- Splitting distributes over a separator concatenation. -/
theorem splitCharOn_append_sep (sep : Char) :
    ∀ (p t : Str), sep ∉ p → splitCharOn sep (p ++ sep :: t) = p :: splitCharOn sep t := by
  intro p
  induction p with
  | nil =>
    intro t _
    show splitCharOn sep (sep :: t) = [] :: splitCharOn sep t
    rw [splitCharOn_cons_eq]
    cases hs : splitCharOn sep t with
    | nil => exact absurd hs (splitCharOn_ne_nil sep t)
    | cons q qs =>
      dsimp only
      rw [if_pos rfl]
  | cons c p ih =>
    intro t h
    have hc : ¬ c = sep := fun e => h (e ▸ List.mem_cons_self ..)
    show splitCharOn sep (c :: (p ++ sep :: t)) = (c :: p) :: splitCharOn sep t
    rw [splitCharOn_cons_eq, ih t (fun hm => h (List.mem_cons_of_mem _ hm))]
    dsimp only
    rw [if_neg hc]

/-- Unfolding of the newline join over two or more lines. -/
theorem joinNl_cons₂ (p q : Str) (ps : List Str) :
    joinNl (p :: q :: ps) = p ++ '\n' :: joinNl (q :: ps) := by
  simp [joinNl, List.intercalate, List.intersperse]

/-- Splitting inverts joining for separator-free pieces. -/
theorem splitCharOn_joinNl :
    ∀ (ps : List Str), ps ≠ [] → (∀ p ∈ ps, '\n' ∉ p) →
      splitCharOn '\n' (joinNl ps) = ps := by
  intro ps
  induction ps with
  | nil => intro h _; exact absurd rfl h
  | cons p ps ih =>
    intro _ hnl
    cases ps with
    | nil =>
      show splitCharOn '\n' (joinNl [p]) = [p]
      have : joinNl [p] = p := by simp [joinNl, List.intercalate]
      rw [this]
      exact splitCharOn_single '\n' p (hnl p (List.mem_cons_self ..))
    | cons q qs =>
      rw [joinNl_cons₂, splitCharOn_append_sep '\n' p _ (hnl p (List.mem_cons_self ..)),
        ih (by simp) (fun x hx => hnl x (List.mem_cons_of_mem _ hx))]

/-- Invariant of the body-resolution loop: the final index stays in
range, and either the accumulated brace balance (start value plus the
per-line deltas of the consumed lines) has fallen to zero or below, or
the loop stopped at the last line of the file. -/
theorem braceScanAux_spec (lines : List Str) :
    ∀ (fuel j0 : Nat) (bc0 : Int), j0 < lines.length → lines.length ≤ fuel + j0 + 1 →
      j0 ≤ braceScanAux lines fuel j0 bc0 ∧ braceScanAux lines fuel j0 bc0 < lines.length ∧
        (bc0 + ((sliceLines lines (j0 + 1) (braceScanAux lines fuel j0 bc0)).map count_braces).sum ≤ 0
          ∨ braceScanAux lines fuel j0 bc0 + 1 = lines.length) := by
  intro fuel
  induction fuel with
  | zero =>
    intro j0 bc0 hj hf
    have h0 : braceScanAux lines 0 j0 bc0 = j0 := rfl
    rw [h0]
    exact ⟨le_refl _, hj, Or.inr (by omega)⟩
  | succ fuel ih =>
    intro j0 bc0 hj hf
    unfold braceScanAux
    by_cases hc : j0 + 1 < lines.length ∧ 0 < bc0
    · rw [if_pos hc]
      obtain ⟨h1, h2, h3⟩ := ih (j0 + 1) (bc0 + count_braces (lines.getD (j0 + 1) [])) hc.1 (by omega)
      refine ⟨by omega, h2, ?_⟩
      rcases h3 with h3 | h3
      · left
        rw [sliceLines_cons lines (j0 + 1) _ h1 hc.1, List.map_cons, List.sum_cons]
        omega
      · right
        exact h3
    · rw [if_neg hc]
      by_cases hlen : j0 + 1 < lines.length
      · refine ⟨le_refl _, hj, Or.inl ?_⟩
        have hbc : bc0 ≤ 0 := by
          by_contra hpos
          exact hc ⟨hlen, by omega⟩
        have hsl : sliceLines lines (j0 + 1) j0 = [] := by
          unfold sliceLines
          have : j0 + 1 - (j0 + 1) = 0 := by omega
          rw [this, List.take_zero]
        rw [hsl]
        simpa using hbc
      · exact ⟨le_refl _, hj, Or.inr (by omega)⟩

/-- The marker scan returns an in-range index at or after its start. -/
theorem findMarkerFrom_spec (lines : List Str) :
    ∀ (fuel i jm : Nat), findMarkerFrom lines fuel i = some jm → i ≤ jm ∧ jm < lines.length := by
  intro fuel
  induction fuel with
  | zero => intro i jm h; exact absurd h (by simp [findMarkerFrom])
  | succ fuel ih =>
    intro i jm h
    unfold findMarkerFrom at h
    by_cases hi : i < lines.length
    · rw [if_pos hi] at h
      by_cases hm : (findSub (lines.getD i []) funcMarker).isSome
      · rw [if_pos hm] at h
        injection h with h
        omega
      · rw [if_neg hm] at h
        obtain ⟨h1, h2⟩ := ih (i + 1) jm h
        exact ⟨by omega, h2⟩
    · rw [if_neg hi] at h
      exact absurd h (by simp)

/-- Master invariant of the extraction loop: every produced record
starts at or after the loop index, its body is the join of a
consecutive in-range line span starting at its start line, and whenever
the `function(` marker occurs on the record's start line (at position
`p`, which is where the code starts brace counting), the accumulated
per-line brace balance of the span from the marker onward is at most
zero or the span ends at the last line of the file. -/
theorem extractAux_mem (lines : List Str) :
    ∀ (fuel i : Nat) (r : ParsedFunction), r ∈ extractAux lines fuel i →
      i ≤ r.start_line ∧ ∃ j, r.start_line ≤ j ∧ j < lines.length ∧
        r.body = joinNl (sliceLines lines r.start_line j) ∧
        ∀ p, findSub (lines.getD r.start_line []) funcMarker = some p →
          (count_braces ((lines.getD r.start_line []).drop p)
              + ((sliceLines lines (r.start_line + 1) j).map count_braces).sum ≤ 0
            ∨ j + 1 = lines.length) := by
  intro fuel
  induction fuel with
  | zero => intro i r h; exact absurd h (by simp [extractAux])
  | succ fuel ih =>
    intro i r h
    unfold extractAux at h
    by_cases hi : i < lines.length
    · rw [if_pos hi] at h
      dsimp only at h
      cases hsf : searchFuncDef (lines.getD i []) with
      | none =>
        rw [hsf] at h
        obtain ⟨h1, hrest⟩ := ih (i + 1) r h
        exact ⟨by omega, hrest⟩
      | some nm =>
        rw [hsf] at h
        cases hfm : findSub (lines.getD i []) funcMarker with
        | some pos =>
          rw [hfm] at h
          dsimp only at h
          rcases List.mem_cons.mp h with hr | hr
          · obtain ⟨hj1, hj2, hbal⟩ := braceScanAux_spec lines lines.length i
              (count_braces ((lines.getD i []).drop pos)) hi (by omega)
            subst hr
            dsimp only
            refine ⟨le_refl _, _, hj1, hj2, rfl, ?_⟩
            intro p hp
            have hpp : pos = p := Option.some.inj (hfm.symm.trans hp)
            rw [← hpp]
            exact hbal
          · obtain ⟨h1, hrest⟩ := ih _ r hr
            have hj1 : i ≤ braceScanAux lines lines.length i
                (count_braces ((lines.getD i []).drop pos)) :=
              (braceScanAux_spec lines lines.length i _ hi (by omega)).1
            exact ⟨by omega, hrest⟩
        | none =>
          rw [hfm] at h
          cases hmk : findMarkerFrom lines lines.length (i + 1) with
          | none =>
            rw [hmk] at h
            obtain ⟨h1, hrest⟩ := ih (i + 1) r h
            exact ⟨by omega, hrest⟩
          | some jm =>
            rw [hmk] at h
            obtain ⟨hjm1, hjm2⟩ := findMarkerFrom_spec lines lines.length (i + 1) jm hmk
            dsimp only at h
            rcases List.mem_cons.mp h with hr | hr
            · obtain ⟨hj1, hj2, hbal⟩ := braceScanAux_spec lines lines.length jm
                (count_braces ((lines.getD i []).drop
                  ((findSub (lines.getD jm []) funcMarker).getD 0))) hjm2 (by omega)
              subst hr
              dsimp only
              refine ⟨le_refl _, _, by omega, hj2, rfl, ?_⟩
              intro p hp
              rw [hfm] at hp
              exact absurd hp (by simp)
            · obtain ⟨h1, hrest⟩ := ih _ r hr
              have hj1 : jm ≤ braceScanAux lines lines.length jm
                  (count_braces ((lines.getD i []).drop
                    ((findSub (lines.getD jm []) funcMarker).getD 0))) :=
                (braceScanAux_spec lines lines.length jm _ hjm2 (by omega)).1
              exact ⟨by omega, hrest⟩
    · rw [if_neg hi] at h
      exact absurd h (by simp)

/-- Records produced by extraction never overlap: each later record
starts at or after the line following the previous record's body span
(so a definition line inside an earlier span yields no record). -/
theorem extractAux_pairwise (lines : List Str) (hnl : ∀ l ∈ lines, '\n' ∉ l) :
    ∀ (fuel i : Nat), List.Pairwise
      (fun a b : ParsedFunction => a.start_line + (splitCharOn '\n' a.body).length ≤ b.start_line)
      (extractAux lines fuel i) := by
  intro fuel
  induction fuel with
  | zero =>
    intro i
    have h0 : extractAux lines 0 i = [] := rfl
    rw [h0]
    exact List.Pairwise.nil
  | succ fuel ih =>
    intro i
    unfold extractAux
    by_cases hi : i < lines.length
    · rw [if_pos hi]
      dsimp only
      cases hsf : searchFuncDef (lines.getD i []) with
      | none => exact ih (i + 1)
      | some nm =>
        cases hfm : findSub (lines.getD i []) funcMarker with
        | some pos =>
          simp only [← List.getD_eq_getElem?_getD]
          obtain ⟨hj1, hj2, _⟩ := braceScanAux_spec lines lines.length i
            (count_braces ((lines.getD i []).drop pos)) hi (by omega)
          have hne : sliceLines lines i (braceScanAux lines lines.length i
              (count_braces ((lines.getD i []).drop pos))) ≠ [] := by
            intro hempty
            have hlen := sliceLines_length lines i _ hj1 hj2
            rw [hempty] at hlen
            rw [List.length_nil] at hlen
            omega
          have hnl2 : ∀ q ∈ sliceLines lines i (braceScanAux lines lines.length i
              (count_braces ((lines.getD i []).drop pos))), '\n' ∉ q :=
            fun q hq => hnl q (sliceLines_subset lines i _ hq)
          have hsplit := splitCharOn_joinNl _ hne hnl2
          refine List.Pairwise.cons ?_ (ih _)
          intro b hb
          obtain ⟨hstart, _⟩ := extractAux_mem lines fuel _ b hb
          dsimp only
          rw [hsplit, sliceLines_length lines i _ hj1 hj2]
          simp only [List.getD_eq_getElem?_getD] at *
          omega
        | none =>
          cases hmk : findMarkerFrom lines lines.length (i + 1) with
          | none => exact ih (i + 1)
          | some jm =>
            simp only [← List.getD_eq_getElem?_getD]
            obtain ⟨hjm1, hjm2⟩ := findMarkerFrom_spec lines lines.length (i + 1) jm hmk
            obtain ⟨hj1, hj2, _⟩ := braceScanAux_spec lines lines.length jm
              (count_braces ((lines.getD i []).drop
                ((findSub (lines.getD jm []) funcMarker).getD 0))) hjm2 (by omega)
            have hij : i ≤ braceScanAux lines lines.length jm
                (count_braces ((lines.getD i []).drop
                  ((findSub (lines.getD jm []) funcMarker).getD 0))) := by omega
            have hne : sliceLines lines i (braceScanAux lines lines.length jm
                (count_braces ((lines.getD i []).drop
                  ((findSub (lines.getD jm []) funcMarker).getD 0)))) ≠ [] := by
              intro hempty
              have hlen := sliceLines_length lines i _ hij hj2
              rw [hempty] at hlen
              rw [List.length_nil] at hlen
              omega
            have hnl2 : ∀ q ∈ sliceLines lines i (braceScanAux lines lines.length jm
                (count_braces ((lines.getD i []).drop
                  ((findSub (lines.getD jm []) funcMarker).getD 0)))), '\n' ∉ q :=
              fun q hq => hnl q (sliceLines_subset lines i _ hq)
            have hsplit := splitCharOn_joinNl _ hne hnl2
            refine List.Pairwise.cons ?_ (ih _)
            intro b hb
            obtain ⟨hstart, _⟩ := extractAux_mem lines fuel _ b hb
            dsimp only
            rw [hsplit, sliceLines_length lines i _ hij hj2]
            simp only [List.getD_eq_getElem?_getD] at *
            omega
    · rw [if_neg hi]
      exact List.Pairwise.nil

/-- Claim C1 (amended): a candidate whose braces never re-balance is
not dropped - it is still recorded, with a body running to the last
line of the file.  Consequently, for every record whose `function(`
marker occurs on its first body line at position `p` (where brace
counting starts), either the per-line brace deltas from the marker
onward sum to at most zero (zero for a normally closed body, negative
when a line over-closes), or the record's body extends to the end of
the file.  The rest of the file still parses in the sense that
scanning resumes after the body span. -/
theorem c1_body_balance (src : Str) (r : ParsedFunction) (p : Nat)
    (hr : r ∈ extract_functions src)
    (hp : findSub ((splitCharOn '\n' r.body).headD []) funcMarker = some p) :
    count_braces (((splitCharOn '\n' r.body).headD []).drop p)
        + (((splitCharOn '\n' r.body).tail).map count_braces).sum ≤ 0
      ∨ r.start_line + (splitCharOn '\n' r.body).length = (splitCharOn '\n' src).length := by
  obtain ⟨_, j, hsj, hjl, hbody, hbal⟩ := extractAux_mem (splitCharOn '\n' src) _ _ r hr
  have hstartlt : r.start_line < (splitCharOn '\n' src).length := lt_of_le_of_lt hsj hjl
  have hne : sliceLines (splitCharOn '\n' src) r.start_line j ≠ [] := by
    intro hempty
    have hlen := sliceLines_length (splitCharOn '\n' src) r.start_line j hsj hjl
    rw [hempty] at hlen
    rw [List.length_nil] at hlen
    omega
  have hnl2 : ∀ q ∈ sliceLines (splitCharOn '\n' src) r.start_line j, '\n' ∉ q :=
    fun q hq => splitCharOn_sep_not_mem '\n' src q (sliceLines_subset _ _ _ hq)
  have hsplit : splitCharOn '\n' r.body = sliceLines (splitCharOn '\n' src) r.start_line j := by
    rw [hbody]
    exact splitCharOn_joinNl _ hne hnl2
  have hhead : (splitCharOn '\n' r.body).headD [] =
      (splitCharOn '\n' src).getD r.start_line [] := by
    rw [hsplit, sliceLines_cons _ r.start_line j hsj hstartlt]
    rfl
  have htail : (splitCharOn '\n' r.body).tail =
      sliceLines (splitCharOn '\n' src) (r.start_line + 1) j := by
    rw [hsplit, sliceLines_cons _ r.start_line j hsj hstartlt]
    rfl
  have hlen : (splitCharOn '\n' r.body).length = j + 1 - r.start_line := by
    rw [hsplit]
    exact sliceLines_length _ r.start_line j hsj hjl
  rw [hhead] at hp
  rcases hbal p hp with hb | hb
  · left
    rw [hhead, htail]
    exact hb
  · right
    rw [hlen]
    omega

/-- Witness for C1 (amended) at the unterminated one-line source
`f <- function(x) {`: the record is produced (not dropped), the marker
sits at position 5 of its first body line, and the disjunction holds
through its right branch (the body spans to the end of the file). -/
theorem c1_body_balance_witness :
    (⟨("f").data, ("f <- function(x) \x7b").data, 0, none⟩ : ParsedFunction) ∈
        extract_functions (("f <- function(x) \x7b").data) ∧
    findSub ((splitCharOn '\n' (("f <- function(x) \x7b").data)).headD []) funcMarker = some 5 ∧
    (count_braces (((splitCharOn '\n' (("f <- function(x) \x7b").data)).headD []).drop 5)
          + (((splitCharOn '\n' (("f <- function(x) \x7b").data)).tail).map count_braces).sum ≤ 0
        ∨ (0 : Nat) + (splitCharOn '\n' (("f <- function(x) \x7b").data)).length
            = (splitCharOn '\n' (("f <- function(x) \x7b").data)).length) :=
  ⟨by decide, by decide,
    c1_body_balance (("f <- function(x) \x7b").data)
      ⟨("f").data, ("f <- function(x) \x7b").data, 0, none⟩ 5 (by decide) (by decide)⟩

/-- Counterexample to claim C1 as stated: the source `f <- function(x) {`
never closes its brace, yet extraction still produces a record (a
dropped candidate would mean an empty record list), and that record's
body text has brace balance 1, not 0. -/
theorem c1_counterexample :
    extract_functions (("f <- function(x) \x7b").data) =
      [⟨("f").data, ("f <- function(x) \x7b").data, 0, none⟩] ∧
    count_braces (("f <- function(x) \x7b").data) = 1 ∧
    ¬ count_braces (("f <- function(x) \x7b").data) = 0 :=
  ⟨rfl, rfl, by decide⟩

/-- Claim C2 (amended): overlapping or nested function definitions are
NOT each detected - after a record's body span is resolved, scanning
resumes at the line after the span, so every later record starts at or
after the previous record's start line plus its body line count. -/
theorem c2_spans_disjoint (src : Str) :
    List.Pairwise
      (fun a b : ParsedFunction => a.start_line + (splitCharOn '\n' a.body).length ≤ b.start_line)
      (extract_functions src) :=
  extractAux_pairwise _ (fun l hl => splitCharOn_sep_not_mem '\n' src l hl) _ _

/-- Counterexample to claim C2 as stated: for a nested definition the
inner line (line 1) matches the function-definition pattern, yet only
the outer function (start line 0) yields a record. -/
theorem c2_counterexample :
    (extract_functions (("outer <- function(x) \x7b\n  inner <- function(y) \x7b\n    y\n  \x7d\n  inner(x)\n\x7d").data)).map
        (fun r => r.start_line) = [0] ∧
    searchFuncDef ((splitCharOn '\n'
        (("outer <- function(x) \x7b\n  inner <- function(y) \x7b\n    y\n  \x7d\n  inner(x)\n\x7d").data)).getD 1 [])
      = some (("inner").data) :=
  ⟨rfl, rfl⟩
